import Mathlib

/-!
Shallow embedding of the staleness-driven availability-check scheduler of the
tv-streaming-availability-tracker worker.

Conventions of the embedding:
* timestamps (`last_checked`, `now`) are epoch seconds (`Nat`). Every stored
  `last_checked` comes from `new Date().toISOString()`, so the `ORDER BY`
  text comparison compares two strings of the same `YYYY-MM-DDTHH:mm:ss.sssZ`
  shape, which is chronological and is modelled by the order on instants.
  The `WHERE last_checked < datetime('now', '-N days')` comparison is
  different: it pits that `T`-separated text bytewise against SQLite's
  space-separated `YYYY-MM-DD HH:MM:SS` text; the first ten bytes are the
  zero-padded dates (bytewise = date order) and on equal dates byte 10 is
  `T` (0x54) versus the space (0x20), so the stored value compares greater.
  The comparison therefore holds exactly when the stored UTC calendar day
  is strictly before the cutoff's UTC calendar day, modelled via `utcDay`;
* nullable columns become `Option`; the JavaScript truthiness test
  `!title.justwatch_id` is `none` or `some ""` (the string field can be empty);
* database writes and sleeps are recorded as an explicit event trace, and
  external calls (JustWatch lookups, statement failures) are supplied by
  per-title environments, so that one run is a pure function of its inputs.
-/

namespace Tracker

/-- Seconds per day, used for the `datetime('now', '-N days')` cutoff. -/
def secondsPerDay : Nat := 86400

/-- A row of the `titles` table (the fields the scheduler core reads). -/
structure TitleRow where
  id : Nat
  name : String
  justwatch_id : Option String
  full_path : Option String
  last_checked : Option Nat
deriving Repr, DecidableEq

/-- A row of the `services` table. -/
structure Service where
  id : Nat
  name : String
  slug : String
deriving Repr, DecidableEq

/-- A row of the `availability_logs` table. -/
structure LogRow where
  title_id : Nat
  service_id : Nat
  check_date : Nat
  is_available : Bool
deriving Repr, DecidableEq

/-- The UTC calendar day of an epoch-seconds instant. -/
def utcDay (ts : Nat) : Nat := ts / secondsPerDay

/-- The `WHERE` clause of `getStaleTitles`:
`last_checked IS NULL OR last_checked < datetime('now', '-daysStale days')`.
The stored value is `toISOString()` text (`YYYY-MM-DDTHH:mm:ss.sssZ`) and
the cutoff is SQLite text (`YYYY-MM-DD HH:MM:SS`); bytewise `<` on these
reduces to a strict comparison of the UTC calendar dates, because the date
prefixes are compared digit by digit and, on equal dates, byte 10 is `T`
against a space, making the stored value the greater one. -/
def isStale (daysStale now : Nat) (t : TitleRow) : Bool :=
  match t.last_checked with
  | none => true
  | some ts => utcDay ts < utcDay (now - daysStale * secondsPerDay)

/-- The selection predicate as the spec words it: a title qualifies if
`lastChecked IS NULL` or the last-checked instant is before
`now − stalenessDays`. Stated for comparison with `isStale`, the
comparison the SQL actually performs; the two differ on instants that fall
on the same UTC day as the cutoff. -/
def isStaleSpec (daysStale now : Nat) (t : TitleRow) : Bool :=
  match t.last_checked with
  | none => true
  | some ts => ts < now - daysStale * secondsPerDay

/-- The `ORDER BY last_checked ASC NULLS FIRST` key order on the
`last_checked` column: `NULL` sorts before every value. -/
def lastCheckedLe (a b : Option Nat) : Bool :=
  match a, b with
  | none, _ => true
  | some _, none => false
  | some x, some y => x ≤ y

/-- The row order used by `getStaleTitles`. -/
def staleLe (a b : TitleRow) : Prop :=
  lastCheckedLe a.last_checked b.last_checked = true

instance : DecidableRel staleLe := fun _ _ =>
  inferInstanceAs (Decidable (_ = true))

instance : IsTotal TitleRow staleLe where
  total a b := by
    unfold staleLe lastCheckedLe
    cases a.last_checked <;> cases b.last_checked <;> simp
    exact Nat.le_total _ _

instance : IsTrans TitleRow staleLe where
  trans a b c := by
    unfold staleLe lastCheckedLe
    cases a.last_checked <;> cases b.last_checked <;> cases c.last_checked <;>
      simp
    omega

/-- `getStaleTitles` (src/worker/src/services/database.ts): select the rows
satisfying the staleness predicate, ordered by `last_checked ASC NULLS FIRST`,
limited to `limit` rows. -/
def getStaleTitles (catalog : List TitleRow) (limit daysStale now : Nat) :
    List TitleRow :=
  (List.insertionSort staleLe (catalog.filter (isStale daysStale now))).take limit

end Tracker

namespace Tracker

/-- `CONFIG.CRON_INTERVAL_MINUTES` (must match the wrangler cron schedule). -/
def CRON_INTERVAL_MINUTES : Nat := 15

/-- `CONFIG.TARGET_CHECK_FREQUENCY_DAYS`. -/
def TARGET_CHECK_FREQUENCY_DAYS : Nat := 7

/-- `runsPerPeriod = (TARGET_CHECK_FREQUENCY_DAYS * 24 * 60) / CRON_INTERVAL_MINUTES`;
the JavaScript floating-point division is exact here (10080 / 15 = 672),
so `Nat` division is faithful. -/
def runsPerPeriod : Nat := TARGET_CHECK_FREQUENCY_DAYS * 24 * 60 / CRON_INTERVAL_MINUTES

/-- `steadyStateBatchSize = Math.max(1, Math.ceil(totalTitles / runsPerPeriod))`;
the ceiling of an exact rational division is `(a + b - 1) / b` on `Nat`. -/
def steadyStateBatchSize (totalTitles : Nat) : Nat :=
  max 1 ((totalTitles + (runsPerPeriod - 1)) / runsPerPeriod)

/-- `t => !t.last_checked`: a stored datetime string is never falsy, so the
JavaScript truthiness test is exactly `IS NULL`. -/
def neverChecked (t : TitleRow) : Bool := t.last_checked.isNone

/-- `neverCheckedBatchSize = Math.min(20, neverCheckedTitles.length)`. -/
def neverCheckedBatchSize (allTitles : List TitleRow) : Nat :=
  min 20 (allTitles.filter neverChecked).length

/-- `regularBatchSize = Math.max(0, steadyStateBatchSize - neverCheckedBatchSize)`;
truncated subtraction on `Nat` is exactly `Math.max(0, a - b)`. -/
def regularBatchSize (allTitles : List TitleRow) : Nat :=
  steadyStateBatchSize allTitles.length - neverCheckedBatchSize allTitles

/-- `totalBatchSize = neverCheckedBatchSize + regularBatchSize`. -/
def totalBatchSize (allTitles : List TitleRow) : Nat :=
  neverCheckedBatchSize allTitles + regularBatchSize allTitles

/-- One observable effect of a scheduled run: the two row mutations, the
once-daily error-log cleanup, and the two kinds of sleep. -/
inductive Event where
  | insertLog (titleId serviceId : Nat) (date : Nat) (avail : Bool)
  | updateLastChecked (titleId : Nat) (ts : Nat)
  | sleepApiDelay
  | sleepBackoff
  | deleteOldErrorLogs
deriving Repr, DecidableEq

/-- Outcome of the `getTitleAvailability` call for one title as the
executor's try/catch distinguishes them: a returned list of service slugs,
or a throw (`rateLimited` records whether the error message contains
"429"). The `threw` case models the defensive catch in `handleScheduled`;
the embedded `getTitleAvailability` itself swallows every failure into a
returned list, so in the composed program the outcome is always `ok` and
the catch is reachable only through statement failures. -/
inductive LookupOutcome where
  | ok (slugs : List String)
  | threw (rateLimited : Bool)
deriving Repr, DecidableEq

/-- The external world seen while processing one title: the lookup outcome,
which `logAvailability` statements throw (one flag per service position; a
database error message does not contain "429"), and whether the
`updateLastChecked` statement throws. -/
structure TitleEnv where
  lookup : LookupOutcome
  insertThrows : List Bool
  updateThrows : Bool
deriving Repr, DecidableEq

/-- `!title.justwatch_id`: null or the empty string (JavaScript truthiness). -/
def skipCheck (t : TitleRow) : Bool :=
  match t.justwatch_id with
  | none => true
  | some s => s == ""

/-- The `for (const service of services)` loop: one `logAvailability` insert
per service with `is_available = availableSlugs.includes(service.slug)`,
stopping at the first throwing statement (a failed insert writes no row).
The throw oracle is consumed positionally, one flag per service (a missing
flag means the statement succeeds). Returns the emitted events and whether
a statement threw. -/
def writeLogs (titleId today : Nat) (slugs : List String) :
    List Service → List Bool → List Event × Bool
  | [], _ => ([], false)
  | s :: rest, throws =>
    if throws.headD false then ([], true)
    else
      let out := writeLogs titleId today slugs rest throws.tail
      (Event.insertLog titleId s.id today (slugs.contains s.slug) :: out.1, out.2)

/-- The `{checked, errors, skipped}` counters together with the event trace. -/
structure TitleOut where
  events : List Event
  checked : Nat
  errors : Nat
  skipped : Nat
deriving Repr, DecidableEq

/-- The body of the per-title loop of `handleScheduled`, with its try/catch:
a null/empty JustWatch id is skipped (no write); a throwing lookup or
database statement is caught, counts one error, and triggers the backoff
sleep exactly when the error message contains "429"; a fully successful
title writes one log row per service, updates `last_checked`, counts one
check, and sleeps the pacing delay. -/
def processTitle (services : List Service) (today now : Nat) (t : TitleRow)
    (env : TitleEnv) : TitleOut :=
  if skipCheck t then ⟨[], 0, 0, 1⟩
  else
    match env.lookup with
    | .threw rl => ⟨if rl then [Event.sleepBackoff] else [], 0, 1, 0⟩
    | .ok slugs =>
      let logs := writeLogs t.id today slugs services env.insertThrows
      if logs.2 then ⟨logs.1, 0, 1, 0⟩
      else if env.updateThrows then ⟨logs.1, 0, 1, 0⟩
      else ⟨logs.1 ++ [Event.updateLastChecked t.id now, Event.sleepApiDelay], 1, 0, 0⟩

/-- The `for (const title of staleTitles)` loop over the whole batch. -/
def processBatch (services : List Service) (today now : Nat)
    (env : TitleRow → TitleEnv) : List TitleRow → TitleOut
  | [] => ⟨[], 0, 0, 0⟩
  | t :: rest =>
    let o := processTitle services today now t (env t)
    let r := processBatch services today now env rest
    ⟨o.events ++ r.events, o.checked + r.checked, o.errors + r.errors,
      o.skipped + r.skipped⟩

/-- The relational store as the scheduler core sees it. -/
structure DbState where
  titles : List TitleRow
  services : List Service
  logs : List LogRow

/-- The single `getStaleTitles` call a tick issues, sized by `totalBatchSize`. -/
def scheduledBatch (st : DbState) (now : Nat) : List TitleRow :=
  getStaleTitles st.titles (totalBatchSize st.titles) TARGET_CHECK_FREQUENCY_DAYS now

/-- One invocation of `handleScheduled`: compute the batch sizes from the
catalog read at invocation, fetch the batch with one `getStaleTitles` call,
run the per-title loop, and, when the UTC hour is 3, additionally delete the
error-log rows older than 30 days. -/
def scheduledRun (st : DbState) (today now hour : Nat) (env : TitleRow → TitleEnv) :
    TitleOut :=
  if hour = 3 then
    let o := processBatch st.services today now env (scheduledBatch st now)
    ⟨o.events ++ [Event.deleteOldErrorLogs], o.checked, o.errors, o.skipped⟩
  else processBatch st.services today now env (scheduledBatch st now)

/-- Apply one persisted mutation to the store: `updateLastChecked` is the SQL
`UPDATE titles SET last_checked = ? WHERE id = ?`, `insertLog` appends one
`availability_logs` row; sleeps touch nothing, and the error-log cleanup
touches no table modelled here. -/
def applyEvent (st : DbState) : Event → DbState
  | .insertLog tid sid d a => { st with logs := st.logs ++ [⟨tid, sid, d, a⟩] }
  | .updateLastChecked tid ts =>
    { st with titles := st.titles.map fun t =>
        if t.id = tid then { t with last_checked := some ts } else t }
  | _ => st

def applyEvents (st : DbState) (es : List Event) : DbState := es.foldl applyEvent st

/-- The inputs of one scheduled run that vary between ticks. -/
structure RunInput where
  today : Nat
  now : Nat
  hour : Nat
  env : TitleRow → TitleEnv

/-- The store after one scheduled run. -/
def runState (st : DbState) (i : RunInput) : DbState :=
  applyEvents st (scheduledRun st i.today i.now i.hour i.env).events

/-- The store after a sequence of scheduled runs. -/
def runMany (inputs : List RunInput) (st : DbState) : DbState :=
  inputs.foldl runState st

end Tracker

namespace Tracker

/-- C1 (amended): `getStaleTitles` returns at most `limit` titles; every
returned title is `NULL`-last-checked or last checked on a UTC calendar day
strictly before the cutoff's day (the text comparison of the stored
`toISOString()` value against `datetime('now', '-N days')` is day-granular,
not instant-granular); the result is sorted ascending by `last_checked`
with `NULL` first (so a never-checked title is never preceded by a checked
one); when at most `limit` titles qualify under that predicate, the result
is exactly the qualifying titles (no padding); and `limit = 0` yields the
empty list. -/
theorem getStaleTitles_spec (catalog : List TitleRow) (limit daysStale now : Nat) :
    (getStaleTitles catalog limit daysStale now).length ≤ limit ∧
    (∀ t ∈ getStaleTitles catalog limit daysStale now, isStale daysStale now t = true) ∧
    (getStaleTitles catalog limit daysStale now).Sorted staleLe ∧
    (getStaleTitles catalog limit daysStale now).Pairwise
      (fun a b => b.last_checked = none → a.last_checked = none) ∧
    ((catalog.filter (isStale daysStale now)).length ≤ limit →
      List.Perm (getStaleTitles catalog limit daysStale now)
        (catalog.filter (isStale daysStale now))) ∧
    getStaleTitles catalog 0 daysStale now = [] := by
  unfold getStaleTitles
  refine ⟨?_, ?_, ?_, ?_, ?_, ?_⟩
  · apply List.length_take_le
  · intro t ht
    have h1 : t ∈ List.insertionSort staleLe (catalog.filter (isStale daysStale now)) :=
      List.take_subset _ _ ht
    have h2 : t ∈ catalog.filter (isStale daysStale now) :=
      (List.mem_insertionSort staleLe).1 h1
    exact (List.mem_filter.1 h2).2
  · exact (List.sorted_insertionSort staleLe _).sublist (List.take_sublist _ _)
  · refine List.Pairwise.imp ?_
      ((List.sorted_insertionSort staleLe _).sublist (List.take_sublist _ _))
    intro a b hab hb
    unfold staleLe lastCheckedLe at hab
    rw [hb] at hab
    cases h : a.last_checked with
    | none => rfl
    | some x => rw [h] at hab; simp at hab
  · intro hle
    have hlen : (List.insertionSort staleLe (catalog.filter (isStale daysStale now))).length
        ≤ limit := by
      rw [List.length_insertionSort]; exact hle
    rw [List.take_of_length_le hlen]
    exact List.perm_insertionSort staleLe _
  · simp

/-- C1 counterexample: a title last checked seven days before `now` but on
the same UTC day as the cutoff instant (01:00 against a 12:00 cutoff)
satisfies the spec's instant-level predicate, yet the SQL text comparison
leaves it unselected even though fewer than `limit` titles qualify — so
"every qualifying title is returned" fails for the instant-level reading. -/
theorem staleness_same_day_not_selected :
    isStaleSpec 7 (20 * secondsPerDay + 43200)
        ⟨1, "a", some "9", none, some (13 * secondsPerDay + 3600)⟩ = true ∧
    getStaleTitles [⟨1, "a", some "9", none, some (13 * secondsPerDay + 3600)⟩]
        5 7 (20 * secondsPerDay + 43200) = [] := by
  decide

/-- C3: `runsPerPeriod = (7 × 24 × 60) / 15 = 672`; `steadyStateBatchSize T`
is the ceiling of `T / runsPerPeriod` floored at `1` (characterised here by
`T ≤ batch × runsPerPeriod` together with minimality among positive batch
sizes), giving `10` at `T = 6720`, `100` at `T = 67200`, at least `1` for
every `T` and exactly `1` at `T = 0`, where the selector returns the empty
list and the per-title loop is a no-op. -/
theorem steadyStateBatchSize_spec :
    runsPerPeriod = 672 ∧
    steadyStateBatchSize 6720 = 10 ∧
    steadyStateBatchSize 67200 = 100 ∧
    (∀ T, 1 ≤ steadyStateBatchSize T) ∧
    (∀ T, T ≤ steadyStateBatchSize T * runsPerPeriod) ∧
    (∀ T b, 1 ≤ b → T ≤ b * runsPerPeriod → steadyStateBatchSize T ≤ b) ∧
    steadyStateBatchSize 0 = 1 ∧
    (∀ limit daysStale now, getStaleTitles [] limit daysStale now = []) ∧
    (∀ services today now env, processBatch services today now env [] = ⟨[], 0, 0, 0⟩) := by
  refine ⟨rfl, by decide, by decide, fun T => le_max_left _ _, ?_, ?_, by decide, ?_, ?_⟩
  · intro T
    unfold steadyStateBatchSize runsPerPeriod TARGET_CHECK_FREQUENCY_DAYS
      CRON_INTERVAL_MINUTES
    have h := Nat.div_add_mod (T + 671) 672
    have h2 : (T + 671) % 672 < 672 := Nat.mod_lt _ (by norm_num)
    have h3 : (T + 671) / 672 ≤ max 1 ((T + 671) / 672) := le_max_right _ _
    calc T ≤ (T + 671) / 672 * 672 := by omega
    _ ≤ max 1 ((T + 671) / 672) * 672 := Nat.mul_le_mul_right _ h3
    _ = max 1 ((T + 671) / (10080 / 15 - 1 + 1)) * (7 * 24 * 60 / 15) := by norm_num
  · intro T b hb hT
    unfold steadyStateBatchSize runsPerPeriod TARGET_CHECK_FREQUENCY_DAYS
      CRON_INTERVAL_MINUTES at *
    have hdiv : (T + (10080 / 15 - 1)) / (10080 / 15) < b + 1 := by
      rw [Nat.div_lt_iff_lt_mul (by norm_num)]
      omega
    omega
  · intro limit daysStale now
    simp [getStaleTitles]
  · intro services today now env
    rfl

/-- The total requested batch is the max of the reservation and the
steady-state size: `r + max 0 (s − r) = max r s`. -/
theorem totalBatchSize_eq_max (allTitles : List TitleRow) :
    totalBatchSize allTitles =
      max (neverCheckedBatchSize allTitles) (steadyStateBatchSize allTitles.length) := by
  unfold totalBatchSize regularBatchSize
  omega

/-- C4 counterexample: there is no catalog on which the total requested size
is smaller than `steadyStateBatchSize` — the reservation arithmetic yields
`max(reservation, steadyStateBatch)`, which is never below the steady-state
size, refuting "this total requested size may be smaller than
steadyStateBatch". -/
theorem totalBatchSize_never_below_steady :
    ¬ ∃ allTitles : List TitleRow,
        totalBatchSize allTitles < steadyStateBatchSize allTitles.length := by
  rintro ⟨c, hc⟩
  rw [totalBatchSize_eq_max] at hc
  exact absurd hc (not_lt.2 (le_max_right _ _))

/-- C4 (amended): on every tick the scheduler reserves
`min(20, #never-checked)` slots, computes the remainder as
`steadyStateBatch − reservation` floored at 0, and requests
`reservation + remainder` titles from the Staleness Selector in one call
(`scheduledBatch`); this total equals `max(reservation, steadyStateBatch)`:
it equals `steadyStateBatch` whenever the reservation is at most
`steadyStateBatch`, and is strictly larger otherwise — it is never smaller
than `steadyStateBatch`. -/
theorem handleScheduled_batchRequest_spec (st : DbState) (now : Nat) :
    neverCheckedBatchSize st.titles = min 20 (st.titles.filter neverChecked).length ∧
    regularBatchSize st.titles
      = steadyStateBatchSize st.titles.length - neverCheckedBatchSize st.titles ∧
    totalBatchSize st.titles
      = neverCheckedBatchSize st.titles + regularBatchSize st.titles ∧
    scheduledBatch st now
      = getStaleTitles st.titles (totalBatchSize st.titles) TARGET_CHECK_FREQUENCY_DAYS now ∧
    totalBatchSize st.titles
      = max (neverCheckedBatchSize st.titles) (steadyStateBatchSize st.titles.length) ∧
    steadyStateBatchSize st.titles.length ≤ totalBatchSize st.titles ∧
    (neverCheckedBatchSize st.titles ≤ steadyStateBatchSize st.titles.length →
      totalBatchSize st.titles = steadyStateBatchSize st.titles.length) ∧
    (steadyStateBatchSize st.titles.length < neverCheckedBatchSize st.titles →
      totalBatchSize st.titles = neverCheckedBatchSize st.titles) := by
  refine ⟨rfl, rfl, rfl, rfl, totalBatchSize_eq_max _, ?_, ?_, ?_⟩
  · rw [totalBatchSize_eq_max]; exact le_max_right _ _
  · intro h; rw [totalBatchSize_eq_max]; exact max_eq_right h
  · intro h; rw [totalBatchSize_eq_max]; exact max_eq_left h.le

/-- Recogniser for availability-log inserts. -/
def isInsertLog : Event → Bool
  | .insertLog _ _ _ _ => true
  | _ => false

/-- Recogniser for `last_checked` updates. -/
def isUpdate : Event → Bool
  | .updateLastChecked _ _ => true
  | _ => false

/-- Recogniser for events that mutate the relational store. -/
def isMutation : Event → Bool
  | .insertLog _ _ _ _ => true
  | .updateLastChecked _ _ => true
  | .deleteOldErrorLogs => true
  | _ => false

/-- With no throwing statement, the service loop emits exactly one insert
per service, in table order. -/
theorem writeLogs_of_no_throw (titleId today : Nat) (slugs : List String) :
    ∀ (services : List Service) (insertThrows : List Bool),
      (∀ b ∈ insertThrows, b = false) →
      writeLogs titleId today slugs services insertThrows =
        ((services.map fun s => Event.insertLog titleId s.id today (slugs.contains s.slug)),
          false)
  | [], _, _ => rfl
  | s :: rest, [], h => by
    simp [writeLogs, writeLogs_of_no_throw titleId today slugs rest [] (by simp)]
  | s :: rest, b :: bs, h => by
    have hb : b = false := h b (List.mem_cons_self _ _)
    simp [writeLogs, hb, writeLogs_of_no_throw titleId today slugs rest bs
      (fun x hx => h x (List.mem_cons_of_mem _ hx))]

/-- Every event the service loop emits is an insert for this title. -/
theorem writeLogs_event_shape (titleId today : Nat) (slugs : List String) :
    ∀ (services : List Service) (insertThrows : List Bool),
      ∀ e ∈ (writeLogs titleId today slugs services insertThrows).1,
        ∃ sid a, e = Event.insertLog titleId sid today a
  | [], _, e, he => by simp [writeLogs] at he
  | s :: rest, throws, e, he => by
    by_cases hg : throws.headD false = true
    · simp only [writeLogs] at he
      rw [if_pos hg] at he
      simp at he
    · simp only [writeLogs] at he
      rw [if_neg hg] at he
      rcases List.mem_cons.1 he with he | he
      · exact ⟨s.id, slugs.contains s.slug, he⟩
      · exact writeLogs_event_shape titleId today slugs rest throws.tail e he

/-- Every event `processTitle` emits is an insert for this title, the
`last_checked` update for this title, or a sleep; and any insert or update
comes from a non-skipped title. -/
theorem processTitle_event_shape (services : List Service) (today now : Nat)
    (t : TitleRow) (env : TitleEnv) (e : Event)
    (he : e ∈ (processTitle services today now t env).events) :
    (skipCheck t = false ∧
      ((∃ sid a, e = Event.insertLog t.id sid today a) ∨
        e = Event.updateLastChecked t.id now)) ∨
    (e = Event.sleepApiDelay ∨ e = Event.sleepBackoff) := by
  unfold processTitle at he
  by_cases hs : skipCheck t
  · simp [hs] at he
  · simp only [hs, Bool.false_eq_true, if_neg, not_false_eq_true] at he
    rcases hl : env.lookup with slugs | rl
    · rw [hl] at he
      simp only at he
      by_cases hw : (writeLogs t.id today slugs services env.insertThrows).2
      · simp only [hw, if_pos] at he
        exact Or.inl ⟨Bool.not_eq_true _ ▸ hs, Or.inl
          (writeLogs_event_shape t.id today slugs services env.insertThrows e he)⟩
      · by_cases hu : env.updateThrows
        · simp only [hw, hu, Bool.false_eq_true, if_neg, not_false_eq_true, if_pos] at he
          exact Or.inl ⟨Bool.not_eq_true _ ▸ hs, Or.inl
            (writeLogs_event_shape t.id today slugs services env.insertThrows e he)⟩
        · simp only [hw, hu, Bool.false_eq_true, if_neg, not_false_eq_true,
            List.mem_append, List.mem_cons, List.mem_singleton] at he
          rcases he with he | he | he | he
          · exact Or.inl ⟨Bool.not_eq_true _ ▸ hs, Or.inl
              (writeLogs_event_shape t.id today slugs services env.insertThrows e he)⟩
          · exact Or.inl ⟨Bool.not_eq_true _ ▸ hs, Or.inr he⟩
          · exact Or.inr (Or.inl he)
          · simp at he
    · rw [hl] at he
      rcases rl with _ | _
      · simp at he
      · simp at he
        exact Or.inr (Or.inr he)

theorem applyEvents_cons (st : DbState) (e : Event) (es : List Event) :
    applyEvents st (e :: es) = applyEvents (applyEvent st e) es := rfl

/-- Applying run events never changes the sequence of title ids. -/
theorem applyEvent_map_id (st : DbState) (e : Event) :
    (applyEvent st e).titles.map (·.id) = st.titles.map (·.id) := by
  cases e with
  | updateLastChecked tid ts =>
    simp only [applyEvent, List.map_map]
    refine List.map_congr_left ?_
    intro t _
    by_cases h : t.id = tid <;> simp [h]
  | insertLog tid sid d a => rfl
  | sleepApiDelay => rfl
  | sleepBackoff => rfl
  | deleteOldErrorLogs => rfl

theorem applyEvents_map_id (es : List Event) :
    ∀ st : DbState, (applyEvents st es).titles.map (·.id) = st.titles.map (·.id) := by
  induction es with
  | nil => intro st; rfl
  | cons e rest ih =>
    intro st
    rw [applyEvents_cons, ih, applyEvent_map_id]

/-- A row whose id is never the target of an update survives unchanged. -/
theorem applyEvent_mem_titles (st : DbState) (e : Event) (r : TitleRow)
    (hmem : r ∈ st.titles) (hne : ∀ ts, e ≠ Event.updateLastChecked r.id ts) :
    r ∈ (applyEvent st e).titles := by
  cases e with
  | updateLastChecked tid ts =>
    simp only [applyEvent]
    have hid : ¬ r.id = tid := fun h => hne ts (by rw [h])
    exact List.mem_map.2 ⟨r, hmem, by simp [hid]⟩
  | insertLog tid sid d a => exact hmem
  | sleepApiDelay => exact hmem
  | sleepBackoff => exact hmem
  | deleteOldErrorLogs => exact hmem

theorem applyEvents_mem_titles (es : List Event) (r : TitleRow) :
    ∀ st : DbState, r ∈ st.titles →
      (∀ ts, Event.updateLastChecked r.id ts ∉ es) →
      r ∈ (applyEvents st es).titles := by
  induction es with
  | nil => intro st h _; exact h
  | cons e rest ih =>
    intro st hmem hno
    rw [applyEvents_cons]
    refine ih _ (applyEvent_mem_titles st e r hmem ?_) ?_
    · exact fun ts heq => hno ts (heq ▸ List.mem_cons_self _ _)
    · exact fun ts hts => hno ts (List.mem_cons_of_mem _ hts)

/-- The availability-log rows of a title no event inserts for are unchanged. -/
theorem applyEvent_logs_filter (st : DbState) (e : Event) (i : Nat)
    (hne : ∀ sid d a, e ≠ Event.insertLog i sid d a) :
    (applyEvent st e).logs.filter (fun lr => lr.title_id == i)
      = st.logs.filter (fun lr => lr.title_id == i) := by
  cases e with
  | insertLog tid sid d a =>
    simp only [applyEvent, List.filter_append]
    have hid : ¬ tid = i := fun h => hne sid d a (by rw [h])
    simp [hid]
  | updateLastChecked tid ts => rfl
  | sleepApiDelay => rfl
  | sleepBackoff => rfl
  | deleteOldErrorLogs => rfl

theorem applyEvents_logs_filter (es : List Event) (i : Nat) :
    ∀ st : DbState, (∀ sid d a, Event.insertLog i sid d a ∉ es) →
      (applyEvents st es).logs.filter (fun lr => lr.title_id == i)
        = st.logs.filter (fun lr => lr.title_id == i) := by
  induction es with
  | nil => intro st _; rfl
  | cons e rest ih =>
    intro st hno
    rw [applyEvents_cons]
    rw [ih _ fun sid d a hts => hno sid d a (List.mem_cons_of_mem _ hts)]
    exact applyEvent_logs_filter st e i
      fun sid d a heq => hno sid d a (heq ▸ List.mem_cons_self _ _)

theorem applyEvent_titles_of_not_update (st : DbState) (e : Event)
    (h : isUpdate e = false) : (applyEvent st e).titles = st.titles := by
  cases e with
  | updateLastChecked tid ts => simp [isUpdate] at h
  | insertLog tid sid d a => rfl
  | sleepApiDelay => rfl
  | sleepBackoff => rfl
  | deleteOldErrorLogs => rfl

theorem applyEvents_titles_of_no_update (es : List Event) :
    ∀ st : DbState, (∀ e ∈ es, isUpdate e = false) →
      (applyEvents st es).titles = st.titles := by
  induction es with
  | nil => intro st _; rfl
  | cons e rest ih =>
    intro st h
    rw [applyEvents_cons, ih _ fun x hx => h x (List.mem_cons_of_mem _ hx),
      applyEvent_titles_of_not_update st e (h e (List.mem_cons_self _ _))]

theorem length_filter_isInsertLog_map (tid today : Nat) (slugs : List String) :
    ∀ services : List Service,
      ((services.map fun s => Event.insertLog tid s.id today (slugs.contains s.slug)).filter
        isInsertLog).length = services.length
  | [] => rfl
  | s :: rest => by
    rw [List.map_cons, List.filter_cons_of_pos (by rfl), List.length_cons,
      length_filter_isInsertLog_map tid today slugs rest, List.length_cons]

/-- C2: a successfully processed title (non-null external id, lookup
returning `slugs`, no statement failure) emits exactly one
availability-log insert per known service, in table order, with
`available = true` iff the service's slug is in the lookup result —
`services.length` rows however many slugs the lookup reported, including
none — followed by the `last_checked` update and the pacing sleep. -/
theorem processTitle_total_coverage (services : List Service) (today now : Nat)
    (t : TitleRow) (env : TitleEnv) (slugs : List String)
    (hskip : skipCheck t = false) (hlk : env.lookup = .ok slugs)
    (hins : ∀ b ∈ env.insertThrows, b = false) (hupd : env.updateThrows = false) :
    processTitle services today now t env =
      ⟨(services.map fun s => Event.insertLog t.id s.id today (slugs.contains s.slug))
          ++ [Event.updateLastChecked t.id now, Event.sleepApiDelay], 1, 0, 0⟩ ∧
    ((processTitle services today now t env).events.filter isInsertLog).length
      = services.length := by
  have hw := writeLogs_of_no_throw t.id today slugs services env.insertThrows hins
  have h1 : processTitle services today now t env =
      ⟨(services.map fun s => Event.insertLog t.id s.id today (slugs.contains s.slug))
          ++ [Event.updateLastChecked t.id now, Event.sleepApiDelay], 1, 0, 0⟩ := by
    unfold processTitle
    simp [hskip, hlk, hw, hupd]
  refine ⟨h1, ?_⟩
  rw [h1]
  show ((_ ++ [Event.updateLastChecked t.id now, Event.sleepApiDelay]).filter
    isInsertLog).length = _
  rw [List.filter_append]
  have h2 : List.filter isInsertLog
      [Event.updateLastChecked t.id now, Event.sleepApiDelay] = [] := rfl
  rw [h2, List.append_nil]
  exact length_filter_isInsertLog_map t.id today slugs services

/-- C8 (amended): a failing store write (availability-log insert or
`last_checked` update) during a title is caught by the same per-title
handler: one error is counted, the run continues with the remaining
titles, and the failing title's events are only the inserts that succeeded
before the failure — never the `last_checked` update — so the title rows
are unchanged and the next tick's `getStaleTitles` ordering is as if the
title had not been selected. -/
theorem processBatch_persistence_failure (services : List Service) (today now : Nat)
    (env : TitleRow → TitleEnv) (t : TitleRow) (rest : List TitleRow) (slugs : List String)
    (hskip : skipCheck t = false) (hlk : (env t).lookup = .ok slugs)
    (hfail : (writeLogs t.id today slugs services (env t).insertThrows).2 = true
             ∨ (env t).updateThrows = true) :
    processTitle services today now t (env t) =
      ⟨(writeLogs t.id today slugs services (env t).insertThrows).1, 0, 1, 0⟩ ∧
    processBatch services today now env (t :: rest) =
      ⟨(processTitle services today now t (env t)).events
          ++ (processBatch services today now env rest).events,
        (processBatch services today now env rest).checked,
        1 + (processBatch services today now env rest).errors,
        (processBatch services today now env rest).skipped⟩ ∧
    (∀ st : DbState,
      (applyEvents st (processTitle services today now t (env t)).events).titles
        = st.titles) ∧
    (∀ (st : DbState) (limit daysStale now2 : Nat),
      getStaleTitles
        (applyEvents st (processTitle services today now t (env t)).events).titles
        limit daysStale now2
      = getStaleTitles st.titles limit daysStale now2) := by
  have h1 : processTitle services today now t (env t) =
      ⟨(writeLogs t.id today slugs services (env t).insertThrows).1, 0, 1, 0⟩ := by
    unfold processTitle
    rcases hfail with hf | hf
    · simp [hskip, hlk, hf]
    · by_cases hw : (writeLogs t.id today slugs services (env t).insertThrows).2 <;>
        simp [hskip, hlk, hw, hf]
  have htitles : ∀ st : DbState,
      (applyEvents st (processTitle services today now t (env t)).events).titles
        = st.titles := by
    intro st
    apply applyEvents_titles_of_no_update
    rw [h1]
    intro e he
    obtain ⟨sid, a, rfl⟩ :=
      writeLogs_event_shape t.id today slugs services (env t).insertThrows e he
    rfl
  refine ⟨h1, ?_, htitles, ?_⟩
  · simp only [processBatch]
    rw [h1]
    simp
  · intro st limit daysStale now2
    rw [htitles st]

/-- C8 counterexample: in a concrete run where the first title's log insert
throws, the second title is still processed and checked — the store-write
failure does not abort the remainder of the run. -/
theorem persistenceFailure_run_continues :
    (scheduledRun
        ⟨[⟨1, "a", some "9", none, none⟩, ⟨2, "b", some "9", none, none⟩],
          [⟨1, "n", "nfx"⟩], []⟩ 0 0 0
        fun t => if t.id = 1 then ⟨.ok [], [true], false⟩ else ⟨.ok [], [], false⟩).checked
      = 1 ∧
    (scheduledRun
        ⟨[⟨1, "a", some "9", none, none⟩, ⟨2, "b", some "9", none, none⟩],
          [⟨1, "n", "nfx"⟩], []⟩ 0 0 0
        fun t => if t.id = 1 then ⟨.ok [], [true], false⟩ else ⟨.ok [], [], false⟩).errors
      = 1 :=
  ⟨rfl, rfl⟩

/-- Events of a whole batch, classified: store mutations come only from
non-skipped batch titles (their inserts and their `last_checked` update);
everything else is a sleep. -/
theorem processBatch_event_shape (services : List Service) (today now : Nat)
    (env : TitleRow → TitleEnv) :
    ∀ (batch : List TitleRow),
      ∀ e ∈ (processBatch services today now env batch).events,
        (∃ t ∈ batch, skipCheck t = false ∧
          ((∃ sid a, e = Event.insertLog t.id sid today a) ∨
            e = Event.updateLastChecked t.id now)) ∨
        (e = Event.sleepApiDelay ∨ e = Event.sleepBackoff)
  | [], e, he => by simp [processBatch] at he
  | t :: rest, e, he => by
    simp only [processBatch, List.mem_append] at he
    rcases he with he | he
    · rcases processTitle_event_shape services today now t (env t) e he with ⟨hs, hsh⟩ | hsl
      · exact Or.inl ⟨t, List.mem_cons_self _ _, hs, hsh⟩
      · exact Or.inr hsl
    · rcases processBatch_event_shape services today now env rest e he with
        ⟨t', ht', hrest⟩ | hsl
      · exact Or.inl ⟨t', List.mem_cons_of_mem _ ht', hrest⟩
      · exact Or.inr hsl

/-- Events of one scheduled run, classified. -/
theorem scheduledRun_event_shape (st : DbState) (today now hour : Nat)
    (env : TitleRow → TitleEnv) (e : Event)
    (he : e ∈ (scheduledRun st today now hour env).events) :
    (∃ t ∈ scheduledBatch st now, skipCheck t = false ∧
      ((∃ sid a, e = Event.insertLog t.id sid today a) ∨
        e = Event.updateLastChecked t.id now)) ∨
    (e = Event.sleepApiDelay ∨ e = Event.sleepBackoff) ∨
    (hour = 3 ∧ e = Event.deleteOldErrorLogs) := by
  unfold scheduledRun at he
  by_cases hh : hour = 3
  · rw [if_pos hh] at he
    rcases List.mem_append.1 he with he | he
    · rcases processBatch_event_shape st.services today now env _ e he with h | h
      · exact Or.inl h
      · exact Or.inr (Or.inl h)
    · exact Or.inr (Or.inr ⟨hh, List.mem_singleton.1 he⟩)
  · rw [if_neg hh] at he
    rcases processBatch_event_shape st.services today now env _ e he with h | h
    · exact Or.inl h
    · exact Or.inr (Or.inl h)

/-- C9 (amended): every store mutation of one scheduled run is a
single-row availability-log insert or a single-row `last_checked` update,
except that a run whose UTC hour is 3 additionally performs the daily
error-log cleanup delete; when the hour is not 3, the two row mutations
are the only ones. -/
theorem scheduledRun_mutations_spec (st : DbState) (today now hour : Nat)
    (env : TitleRow → TitleEnv) (e : Event)
    (he : e ∈ (scheduledRun st today now hour env).events)
    (hm : isMutation e = true) :
    (∃ tid sid d a, e = Event.insertLog tid sid d a) ∨
    (∃ tid ts, e = Event.updateLastChecked tid ts) ∨
    (hour = 3 ∧ e = Event.deleteOldErrorLogs) := by
  rcases scheduledRun_event_shape st today now hour env e he with
    ⟨t, _, _, hsh⟩ | hsl | hdel
  · rcases hsh with ⟨sid, a, rfl⟩ | rfl
    · exact Or.inl ⟨t.id, sid, today, a, rfl⟩
    · exact Or.inr (Or.inl ⟨t.id, now, rfl⟩)
  · rcases hsl with rfl | rfl <;> simp [isMutation] at hm
  · exact Or.inr (Or.inr hdel)

/-- C9 counterexample: at UTC hour 3 a scheduled run performs a store
mutation that is neither of the two row mutations — the error-log delete
appears in the trace even on an empty catalog. -/
theorem scheduledRun_extra_mutation :
    (scheduledRun ⟨[], [], []⟩ 0 0 3 fun _ => ⟨.ok [], [], false⟩).events
      = [Event.deleteOldErrorLogs] ∧
    isMutation Event.deleteOldErrorLogs = true ∧
    isInsertLog Event.deleteOldErrorLogs = false ∧
    isUpdate Event.deleteOldErrorLogs = false :=
  ⟨rfl, rfl, rfl, rfl⟩

/-- Rows returned by the selector come from the catalog. -/
theorem mem_of_mem_getStaleTitles (catalog : List TitleRow) (limit daysStale now : Nat)
    (t : TitleRow) (ht : t ∈ getStaleTitles catalog limit daysStale now) : t ∈ catalog := by
  unfold getStaleTitles at ht
  exact (List.mem_filter.1 ((List.mem_insertionSort staleLe).1 (List.take_subset _ _ ht))).1

/-- A skipped title in the batch makes the skip counter at least one. -/
theorem processBatch_skipped_ge (services : List Service) (today now : Nat)
    (env : TitleRow → TitleEnv) :
    ∀ (batch : List TitleRow) (r : TitleRow), r ∈ batch → skipCheck r = true →
      1 ≤ (processBatch services today now env batch).skipped
  | [], r, hr, _ => by cases hr
  | t :: rest, r, hr, hskip => by
    simp only [processBatch]
    rcases List.mem_cons.1 hr with rfl | hr
    · have h1 : (processTitle services today now r (env r)).skipped = 1 := by
        unfold processTitle
        simp [hskip]
      omega
    · have h1 := processBatch_skipped_ge services today now env rest r hr hskip
      omega

/-- A catalog title the executor skips generates no event carrying its id,
provided title ids are unique (the `titles` primary-key invariant). -/
theorem scheduledRun_no_events_for_skipped (st : DbState) (today now hour : Nat)
    (env : TitleRow → TitleEnv) (r : TitleRow) (hmem : r ∈ st.titles)
    (hskip : skipCheck r = true) (hnodup : (st.titles.map (·.id)).Nodup) :
    (∀ ts, Event.updateLastChecked r.id ts ∉ (scheduledRun st today now hour env).events) ∧
    (∀ sid d a, Event.insertLog r.id sid d a ∉ (scheduledRun st today now hour env).events) := by
  have key : ∀ e ∈ (scheduledRun st today now hour env).events,
      (∀ ts, e ≠ Event.updateLastChecked r.id ts) ∧
      (∀ sid d a, e ≠ Event.insertLog r.id sid d a) := by
    intro e he
    rcases scheduledRun_event_shape st today now hour env e he with
      ⟨t, htb, hts, hsh⟩ | hsl | hdel
    · have htm : t ∈ st.titles := mem_of_mem_getStaleTitles _ _ _ _ t htb
      have hne : t.id ≠ r.id := by
        intro hid
        have heq : t = r := List.inj_on_of_nodup_map hnodup htm hmem hid
        rw [heq, hskip] at hts
        cases hts
      rcases hsh with ⟨sid, a, rfl⟩ | rfl
      · refine ⟨fun ts h => (nomatch h), fun sid' d' a' h => ?_⟩
        injection h with h1 h2 h3 h4
        exact hne h1
      · refine ⟨fun ts h => ?_, fun sid' d' a' h => (nomatch h)⟩
        injection h with h1 h2
        exact hne h1
    · rcases hsl with rfl | rfl
      · exact ⟨fun ts h => (nomatch h), fun sid d a h => (nomatch h)⟩
      · exact ⟨fun ts h => (nomatch h), fun sid d a h => (nomatch h)⟩
    · obtain ⟨_, rfl⟩ := hdel
      exact ⟨fun ts h => (nomatch h), fun sid d a h => (nomatch h)⟩
  refine ⟨fun ts hin => (key _ hin).1 ts rfl, fun sid d a hin => (key _ hin).2 sid d a rfl⟩

/-- C7: a title whose JustWatch id is null is skipped by every run: across
any sequence of scheduled runs its row — `last_checked` included — is
unchanged, no availability-log row for it is ever added, and every run
whose batch selects it counts at least one skip. Title ids are assumed
unique (the primary-key invariant of the `titles` table). -/
theorem nullId_title_never_touched (r : TitleRow) (hnull : r.justwatch_id = none) :
    (∀ (inputs : List RunInput) (st : DbState), r ∈ st.titles →
      (st.titles.map (·.id)).Nodup →
      r ∈ (runMany inputs st).titles ∧
      (runMany inputs st).logs.filter (fun lr => lr.title_id == r.id)
        = st.logs.filter (fun lr => lr.title_id == r.id)) ∧
    (∀ (st' : DbState) (today now hour : Nat) (env : TitleRow → TitleEnv),
      r ∈ scheduledBatch st' now →
      1 ≤ (scheduledRun st' today now hour env).skipped) := by
  have hskip : skipCheck r = true := by simp [skipCheck, hnull]
  constructor
  · intro inputs
    induction inputs with
    | nil => exact fun st hmem _ => ⟨hmem, rfl⟩
    | cons i rest ih =>
      intro st hmem hnodup
      have hno := scheduledRun_no_events_for_skipped st i.today i.now i.hour i.env r
        hmem hskip hnodup
      have hmem' : r ∈ (runState st i).titles :=
        applyEvents_mem_titles _ r st hmem hno.1
      have hnodup' : ((runState st i).titles.map (·.id)).Nodup := by
        have hmap := applyEvents_map_id
          (scheduledRun st i.today i.now i.hour i.env).events st
        rw [runState, hmap]
        exact hnodup
      have hlogs : (runState st i).logs.filter (fun lr => lr.title_id == r.id)
          = st.logs.filter (fun lr => lr.title_id == r.id) :=
        applyEvents_logs_filter _ r.id st hno.2
      obtain ⟨hm2, hl2⟩ := ih (runState st i) hmem' hnodup'
      exact ⟨hm2, by rw [runMany, List.foldl_cons, ← runMany, hl2, hlogs]⟩
  · intro st' today now hour env hbatch
    unfold scheduledRun
    by_cases hh : hour = 3
    · rw [if_pos hh]
      exact processBatch_skipped_ge st'.services today now env _ r hbatch hskip
    · rw [if_neg hh]
      exact processBatch_skipped_ge st'.services today now env _ r hbatch hskip

/-- `PACKAGE_MAP` (src/worker/src/services/justwatch.ts): JustWatch package
short names to service slugs; both Peacock codes map to "pck". -/
def PACKAGE_MAP (shortName : String) : Option String :=
  if shortName = "nfx" then some "nfx"
  else if shortName = "amp" then some "amp"
  else if shortName = "hlu" then some "hlu"
  else if shortName = "dnp" then some "dnp"
  else if shortName = "hbm" then some "hbm"
  else if shortName = "atp" then some "atp"
  else if shortName = "pct" then some "pck"
  else if shortName = "pcp" then some "pck"
  else if shortName = "pmp" then some "pmp"
  else none

/-- JavaScript `String.prototype.toLowerCase` as a character-wise map (the
provider codes are ASCII). -/
def strToLower (s : String) : String := String.mk (s.data.map Char.toLower)

/-- `offer.package` as the GraphQL API returns it. -/
structure JWPackage where
  shortName : Option String
deriving Repr, DecidableEq

/-- One raw offer: the monetization type and the optional package. -/
structure JWOffer where
  monetizationType : String
  package : Option JWPackage
deriving Repr, DecidableEq

/-- The slug one offer contributes in `extractServicesFromOffers`: honoured
only when `monetizationType === 'FLATRATE'` and the lowercased
`offer.package?.shortName` is truthy (non-empty) and in `PACKAGE_MAP`. -/
def offerSlug (o : JWOffer) : Option String :=
  if o.monetizationType = "FLATRATE" then
    match o.package with
    | none => none
    | some p =>
      match p.shortName with
      | none => none
      | some sn =>
        if strToLower sn = "" then none
        else PACKAGE_MAP (strToLower sn)
  else none

/-- Insertion into a JavaScript `Set` (insertion-ordered, deduplicating). -/
def addSlug (acc : List String) (s : String) : List String :=
  if s ∈ acc then acc else acc ++ [s]

/-- `extractServicesFromOffers`: collect the slugs of the honoured offers
through a `Set`, then `Array.from` in insertion order. -/
def extractServicesFromOffers (offers : List JWOffer) : List String :=
  offers.foldl
    (fun acc o =>
      match offerSlug o with
      | some s => addSlug acc s
      | none => acc) []

theorem mem_extract_fold (slug : String) :
    ∀ (offers : List JWOffer) (acc : List String),
      slug ∈ offers.foldl
        (fun acc o =>
          match offerSlug o with
          | some s => addSlug acc s
          | none => acc) acc →
      slug ∈ acc ∨ ∃ o ∈ offers, offerSlug o = some slug
  | [], acc, h => Or.inl h
  | o :: rest, acc, h => by
    rcases mem_extract_fold slug rest _ h with hacc | ⟨o', ho', hs⟩
    · rcases hos : offerSlug o with _ | s
      · simp only [hos] at hacc
        exact Or.inl hacc
      · simp only [hos] at hacc
        unfold addSlug at hacc
        by_cases hin : s ∈ acc
        · rw [if_pos hin] at hacc
          exact Or.inl hacc
        · rw [if_neg hin] at hacc
          rcases List.mem_append.1 hacc with hacc | hacc
          · exact Or.inl hacc
          · exact Or.inr ⟨o, List.mem_cons_self _ _, by
              rw [hos, List.mem_singleton.1 hacc]⟩
    · exact Or.inr ⟨o', List.mem_cons_of_mem _ ho', hs⟩

/-- The conditions under which one offer contributes a slug. -/
theorem offerSlug_eq_some (o : JWOffer) (slug : String) (h : offerSlug o = some slug) :
    o.monetizationType = "FLATRATE" ∧
    ∃ p sn, o.package = some p ∧ p.shortName = some sn ∧
      PACKAGE_MAP (strToLower sn) = some slug := by
  rcases o with ⟨m, pkg⟩
  unfold offerSlug at h
  dsimp only at h
  by_cases hm : m = "FLATRATE"
  · rw [if_pos hm] at h
    rcases pkg with _ | ⟨sn⟩
    · exact Option.noConfusion h
    · dsimp only at h
      rcases sn with _ | sn
      · exact Option.noConfusion h
      · dsimp only at h
        by_cases hlow : strToLower sn = ""
        · rw [if_pos hlow] at h
          exact Option.noConfusion h
        · rw [if_neg hlow] at h
          exact ⟨hm, ⟨some sn⟩, sn, rfl, rfl, h⟩
  · rw [if_neg hm] at h
    exact Option.noConfusion h

/-- C6: every slug `extractServicesFromOffers` returns comes from an offer
whose `monetizationType` is FLATRATE and whose lowercased provider code is
in `PACKAGE_MAP` (so RENT/BUY offers and unknown providers are ignored);
on the spec's example offers — a FLATRATE "nfx" offer and a RENT "xyz"
offer — against a service table containing only "nfx", the executor writes
exactly one availability row, `available = true` for nfx. -/
theorem extractServices_spec (offers : List JWOffer) (slug : String)
    (h : slug ∈ extractServicesFromOffers offers) :
    (∃ o ∈ offers, o.monetizationType = "FLATRATE" ∧
      ∃ p sn, o.package = some p ∧ p.shortName = some sn ∧
        PACKAGE_MAP (strToLower sn) = some slug) ∧
    extractServicesFromOffers
      [⟨"FLATRATE", some ⟨some "nfx"⟩⟩, ⟨"RENT", some ⟨some "xyz"⟩⟩] = ["nfx"] ∧
    processTitle [⟨1, "Netflix", "nfx"⟩] 5 6 ⟨1, "t", some "10", none, none⟩
      ⟨.ok (extractServicesFromOffers
          [⟨"FLATRATE", some ⟨some "nfx"⟩⟩, ⟨"RENT", some ⟨some "xyz"⟩⟩]), [], false⟩
      = ⟨[Event.insertLog 1 1 5 true, Event.updateLastChecked 1 6, Event.sleepApiDelay],
          1, 0, 0⟩ := by
  refine ⟨?_, by decide, by decide⟩
  rcases mem_extract_fold slug offers [] h with hacc | ⟨o, ho, hs⟩
  · cases hacc
  · exact ⟨o, ho, offerSlug_eq_some o slug hs⟩

/-- A parsed GraphQL node as the availability path reads it: `offers` is a
list when the field is present, absent (`undefined`) otherwise. -/
structure JWNode where
  offers : Option (List JWOffer)
deriving Repr, DecidableEq

/-- Body of the `urlV2` response: a truthy `errors` value (any present
value, even an empty array, is truthy) and `data?.data?.urlV2?.node`. -/
structure PathBody where
  hasErrors : Bool
  node : Option JWNode
deriving Repr, DecidableEq

/-- A search result as `searchTitle` builds it; only the `offers` field
(`node.offers || undefined`) matters to the availability path. -/
structure SearchResult where
  offers : Option (List JWOffer)
deriving Repr, DecidableEq

/-- Body of the search response: `data?.data?.searchTitles?.edges`. -/
structure SearchBody where
  edges : Option (List JWNode)
deriving Repr, DecidableEq

/-- Outcome of one `fetch`: a thrown network error, a non-OK status, or a
parsed body. -/
inductive FetchOutcome (β : Type) where
  | throws
  | notOk (status : Nat)
  | ok (body : β)
deriving Repr, DecidableEq

/-- `getTitleByPath`: `null` on a thrown fetch, a non-OK response or a
GraphQL error body, else `data?.data?.urlV2?.node || null`. -/
def getTitleByPath (res : FetchOutcome PathBody) : Option JWNode :=
  match res with
  | .throws => none
  | .notOk _ => none
  | .ok body => if body.hasErrors then none else body.node

/-- `searchTitle`: `null` on a thrown fetch, a non-OK response, or missing
or empty edges; else the first edge's node mapped to a result whose
`offers` is `node.offers || undefined`. -/
def searchTitle (res : FetchOutcome SearchBody) : Option SearchResult :=
  match res with
  | .throws => none
  | .notOk _ => none
  | .ok body =>
    match body.edges with
    | none => none
    | some [] => none
    | some (n :: _) => some ⟨n.offers⟩

/-- `getTitleAvailability`: prefer the path lookup when `fullPath` is
truthy and it yields a node with an `offers` field; otherwise fall back to
the name search; return `[]` when that fails too or carries no offers.
Every branch returns a list — the outer try/catch cannot fire because each
throwing step is already mapped to a value by the inner handlers. -/
def getTitleAvailability (fullPath : Option String)
    (pathRes : FetchOutcome PathBody) (searchRes : FetchOutcome SearchBody) :
    List String :=
  let fromSearch :=
    match searchTitle searchRes with
    | none => []
    | some r =>
      match r.offers with
      | none => []
      | some os => extractServicesFromOffers os
  match fullPath with
  | none => fromSearch
  | some fp =>
    if fp = "" then fromSearch
    else
      match getTitleByPath pathRes with
      | none => fromSearch
      | some node =>
        match node.offers with
        | none => fromSearch
        | some os => extractServicesFromOffers os

/-- C10: `getTitleAvailability` is total and swallows every failure: when
the path lookup yields no node with offers and the name search yields no
result with offers — which covers network throws, non-OK statuses, GraphQL
error bodies and empty lookups — it returns `[]`, the same value a fully
successful lookup returns when its offers map to no known service (here a
RENT-only offer list), so the two are indistinguishable to the caller. -/
theorem getTitleAvailability_total (fullPath : Option String)
    (pathRes : FetchOutcome PathBody) (searchRes : FetchOutcome SearchBody)
    (hpath : ∀ node, getTitleByPath pathRes = some node → node.offers = none)
    (hsearch : ∀ r, searchTitle searchRes = some r → r.offers = none) :
    getTitleAvailability fullPath pathRes searchRes = [] ∧
    getTitleAvailability fullPath pathRes searchRes
      = getTitleAvailability (some "p")
          (.ok ⟨false, some ⟨some [⟨"RENT", some ⟨some "nfx"⟩⟩]⟩⟩) searchRes := by
  have hfs :
      (match searchTitle searchRes with
        | none => []
        | some r =>
          match r.offers with
          | none => []
          | some os => extractServicesFromOffers os) = ([] : List String) := by
    rcases hsr : searchTitle searchRes with _ | r
    · rfl
    · dsimp only
      rw [hsearch r hsr]
  have main : getTitleAvailability fullPath pathRes searchRes = [] := by
    unfold getTitleAvailability
    rcases fullPath with _ | fp
    · exact hfs
    · dsimp only
      by_cases hfp : fp = ""
      · rw [if_pos hfp]
        exact hfs
      · rw [if_neg hfp]
        rcases hgt : getTitleByPath pathRes with _ | node
        · exact hfs
        · dsimp only
          rw [hpath node hgt]
          exact hfs
  exact ⟨main, by rw [main]; rfl⟩

/-- C5: evaluating the composed code at a failing lookup. A lookup failure
(here HTTP 429 on both the path query and the name search) is swallowed by
`getTitleAvailability` into the empty slug list, so the Check Executor
treats the title as successfully checked: it writes one `available = false`
row per service, updates `last_checked`, and increments `checked` — the
`errors` counter stays 0 and no backoff sleep occurs, because the per-title
catch is unreachable from lookup failures. -/
theorem lookupFailure_recorded_as_checked :
    getTitleAvailability (some "p") (.notOk 429) (.notOk 429) = [] ∧
    processTitle [⟨1, "n", "nfx"⟩] 5 6 ⟨1, "t", some "9", none, none⟩
        ⟨.ok (getTitleAvailability (some "p") (.notOk 429) (.notOk 429)), [], false⟩
      = ⟨[Event.insertLog 1 1 5 false, Event.updateLastChecked 1 6, Event.sleepApiDelay],
          1, 0, 0⟩ := by
  decide

/-- Witness: the selector theorem instantiated on a one-title catalog. -/
theorem getStaleTitles_spec_witness :
    List.Perm (getStaleTitles [⟨1, "x", none, none, none⟩] 2 7 (10 * secondsPerDay))
      (List.filter (isStale 7 (10 * secondsPerDay)) [⟨1, "x", none, none, none⟩]) :=
  (getStaleTitles_spec [⟨1, "x", none, none, none⟩] 2 7 (10 * secondsPerDay)).2.2.2.2.1
    (by decide)

/-- Witness: one successful title against a one-service table. -/
theorem processTitle_total_coverage_witness :
    processTitle [⟨1, "n", "nfx"⟩] 3 4 ⟨7, "t", some "8", none, none⟩
        ⟨.ok ["nfx"], [], false⟩ =
      ⟨[Event.insertLog 7 1 3 true, Event.updateLastChecked 7 4, Event.sleepApiDelay],
        1, 0, 0⟩ :=
  (processTitle_total_coverage [⟨1, "n", "nfx"⟩] 3 4 ⟨7, "t", some "8", none, none⟩
    ⟨.ok ["nfx"], [], false⟩ ["nfx"] (by decide) rfl (by simp) rfl).1

/-- Witness: minimality of the batch size at a concrete catalog size. -/
theorem steadyStateBatchSize_spec_witness : steadyStateBatchSize 600 ≤ 1 :=
  steadyStateBatchSize_spec.2.2.2.2.2.1 600 1 (by decide) (by decide)

/-- Witness: the requested total equals the steady-state size on an empty
catalog. -/
theorem handleScheduled_batchRequest_spec_witness :
    totalBatchSize ([] : List TitleRow) = steadyStateBatchSize ([] : List TitleRow).length :=
  (handleScheduled_batchRequest_spec ⟨[], [], []⟩ 0).2.2.2.2.2.2.1 (by decide)

/-- Witness: the provenance of the "nfx" slug on a one-offer list. -/
theorem extractServices_spec_witness :
    ∃ o ∈ [(⟨"FLATRATE", some ⟨some "nfx"⟩⟩ : JWOffer)],
      o.monetizationType = "FLATRATE" ∧
      ∃ p sn, o.package = some p ∧ p.shortName = some sn ∧
        PACKAGE_MAP (strToLower sn) = some "nfx" :=
  (extractServices_spec [⟨"FLATRATE", some ⟨some "nfx"⟩⟩] "nfx" (by decide)).1

/-- Witness: a null-id title survives one concrete run unchanged. -/
theorem nullId_title_never_touched_witness :
    (⟨5, "x", none, none, none⟩ : TitleRow) ∈
      (runMany [⟨0, 0, 0, fun _ => ⟨.ok [], [], false⟩⟩]
        ⟨[⟨5, "x", none, none, none⟩], [], []⟩).titles :=
  ((nullId_title_never_touched ⟨5, "x", none, none, none⟩ rfl).1
    [⟨0, 0, 0, fun _ => ⟨.ok [], [], false⟩⟩]
    ⟨[⟨5, "x", none, none, none⟩], [], []⟩
    (List.mem_singleton.2 rfl) (by decide)).1

/-- Witness: a title whose first log insert throws is counted as an error. -/
theorem processBatch_persistence_failure_witness :
    processTitle [⟨1, "n", "nfx"⟩] 0 0 ⟨2, "t", some "8", none, none⟩
        ⟨.ok [], [true], false⟩ =
      ⟨[], 0, 1, 0⟩ :=
  (processBatch_persistence_failure [⟨1, "n", "nfx"⟩] 0 0
    (fun _ => ⟨.ok [], [true], false⟩) ⟨2, "t", some "8", none, none⟩ [] []
    (by decide) rfl (Or.inl rfl)).1

/-- Witness: classifying a concrete insert event of a concrete run. -/
theorem scheduledRun_mutations_spec_witness :
    (∃ tid sid d a, Event.insertLog 1 1 0 false = Event.insertLog tid sid d a) ∨
    (∃ tid ts, Event.insertLog 1 1 0 false = Event.updateLastChecked tid ts) ∨
    ((0 : Nat) = 3 ∧ Event.insertLog 1 1 0 false = Event.deleteOldErrorLogs) :=
  scheduledRun_mutations_spec ⟨[⟨1, "t", some "8", none, none⟩], [⟨1, "n", "nfx"⟩], []⟩
    0 0 0 (fun _ => ⟨.ok [], [], false⟩) (Event.insertLog 1 1 0 false)
    (by decide) rfl

/-- Witness: a doubly-failed lookup returns the empty slug list. -/
theorem getTitleAvailability_total_witness :
    getTitleAvailability (some "p") FetchOutcome.throws FetchOutcome.throws = [] :=
  (getTitleAvailability_total (some "p") .throws .throws
    (fun _ h => Option.noConfusion h) (fun _ h => Option.noConfusion h)).1

end Tracker
